import Mathlib

/-!
Verification of the wheel-patcher RECORD-consistency engine.

This file gives a shallow embedding of `wheel_patcher/utils.py`,
`wheel_patcher/record.py` and `wheel_patcher/patcher.py` and proves the
spec's claims about them.  Python strings are modelled as `List Char`
(`Str`), byte strings as `List Nat` (each element a byte value), and the
ordered dictionary `_files_to_add` as an insertion-ordered association
list.  Library calls made by the source (`hashlib.sha256`,
`base64.urlsafe_b64encode`, the `csv` module with its default dialect,
`zipfile` reads/writes, `os.path.isabs` on the POSIX host) are embedded
by reference definitions faithful to their documented behaviour.
-/

namespace WheelPatcher

/-- Python `str` modelled as a list of characters. -/
abbrev Str := List Char

/-- Coerce a Lean string literal to the `Str` model. -/
def str (s : String) : Str := s.data

/-! ## utils.py — path safety -/

/-- Strip all leading `/` characters (the `while normalized.startswith("/")`
loop of `normalize_path`). -/
def dropLeadingSlashes : Str → Str
  | [] => []
  | c :: r => if c = '/' then dropLeadingSlashes r else c :: r

/-- Embedding of `utils.normalize_path`: replace backslashes by forward
slashes, then strip all leading slashes. -/
def normalize_path (p : Str) : Str :=
  dropLeadingSlashes (p.map (fun c => if c = '\\' then '/' else c))

/-- Embedding of `os.path.isabs` on the POSIX host convention:
a path is absolute iff it starts with `/`. -/
def isabs : Str → Bool
  | [] => false
  | c :: _ => c = '/'

/-- Error taxonomy.  The source raises a single `WheelError` carrying a
message; the constructors here mirror the distinct raise sites. -/
inductive WheelErr where
  | sourceNotFound
  | notAFile
  | pathTraversal (p : Str)
  | absolutePath (p : Str)
  | alreadyExists (p : Str)
  | alreadyQueued (p : Str)
  | nothingToSave
  | writeFailure
deriving DecidableEq

/-- Embedding of `utils.validate_path_safe`: re-normalize the argument,
fail when a `/`-separated segment equals `..`, else fail when the argument
itself is absolute. -/
def validate_path_safe (p : Str) : Except WheelErr Unit :=
  let normalized := normalize_path p
  if ['.', '.'] ∈ List.splitOn '/' normalized then
    .error (.pathTraversal p)
  else if isabs p then
    .error (.absolutePath p)
  else
    .ok ()

/-! ## record.py — hashing

`hashlib.sha256` is embedded by a reference SHA-256 over byte lists; all
word arithmetic is `Nat` taken modulo `2 ^ 32`. -/

/-- The 32-bit modulus. -/
def M32 : Nat := 4294967296

/-- Right-rotation of a 32-bit word (`x` assumed `< 2 ^ 32`); the two parts
occupy disjoint bit ranges, so addition is bitwise or. -/
def rotr (n x : Nat) : Nat := x / 2 ^ n + x % 2 ^ n * 2 ^ (32 - n)

/-- Logical right shift. -/
def shr (n x : Nat) : Nat := x / 2 ^ n

/-- SHA-256 `Ch` function (32-bit complement via xor with the mask). -/
def sha2Ch (x y z : Nat) : Nat := (x &&& y) ^^^ ((x ^^^ 4294967295) &&& z)

/-- SHA-256 `Maj` function. -/
def sha2Maj (x y z : Nat) : Nat := (x &&& y) ^^^ (x &&& z) ^^^ (y &&& z)

/-- SHA-256 big sigma 0. -/
def bsig0 (x : Nat) : Nat := rotr 2 x ^^^ rotr 13 x ^^^ rotr 22 x

/-- SHA-256 big sigma 1. -/
def bsig1 (x : Nat) : Nat := rotr 6 x ^^^ rotr 11 x ^^^ rotr 25 x

/-- SHA-256 small sigma 0. -/
def ssig0 (x : Nat) : Nat := rotr 7 x ^^^ rotr 18 x ^^^ shr 3 x

/-- SHA-256 small sigma 1. -/
def ssig1 (x : Nat) : Nat := rotr 17 x ^^^ rotr 19 x ^^^ shr 10 x

/-- The 64 SHA-256 round constants (in decimal). -/
def sha256K : List Nat :=
  [1116352408, 1899447441, 3049323471, 3921009573, 961987163, 1508970993,
   2453635748, 2870763221, 3624381080, 310598401, 607225278, 1426881987,
   1925078388, 2162078206, 2614888103, 3248222580, 3835390401, 4022224774,
   264347078, 604807628, 770255983, 1249150122, 1555081692, 1996064986,
   2554220882, 2821834349, 2952996808, 3210313671, 3336571891, 3584528711,
   113926993, 338241895, 666307205, 773529912, 1294757372, 1396182291,
   1695183700, 1986661051, 2177026350, 2456956037, 2730485921, 2820302411,
   3259730800, 3345764771, 3516065817, 3600352804, 4094571909, 275423344,
   430227734, 506948616, 659060556, 883997877, 958139571, 1322822218,
   1537002063, 1747873779, 1955562222, 2024104815, 2227730452, 2361852424,
   2428436474, 2756734187, 3204031479, 3329325298]

/-- Running hash state: the eight 32-bit working variables. -/
structure Hash8 where
  a : Nat
  b : Nat
  c : Nat
  d : Nat
  e : Nat
  f : Nat
  g : Nat
  h : Nat
deriving DecidableEq

/-- SHA-256 initial hash value (in decimal). -/
def sha256init : Hash8 :=
  ⟨1779033703, 3144134277, 1013904242, 2773480762,
   1359893119, 2600822924, 528734635, 1541459225⟩

/-- Big-endian 32-bit words from a byte list (groups of four). -/
def beWords : List Nat → List Nat
  | a :: b :: c :: d :: r => (a * 16777216 + b * 65536 + c * 256 + d) :: beWords r
  | _ => []

/-- Extend the 16-word message schedule by `n` further words. -/
def extendW : Nat → List Nat → List Nat
  | 0, w => w
  | n + 1, w =>
      let t := (ssig1 (w.getD (w.length - 2) 0) + w.getD (w.length - 7) 0 +
                ssig0 (w.getD (w.length - 15) 0) + w.getD (w.length - 16) 0) % M32
      extendW n (w ++ [t])

/-- One SHA-256 compression round; `kw` pairs the round constant with the
schedule word. -/
def sha2Round (st : Hash8) (kw : Nat × Nat) : Hash8 :=
  let t1 := (st.h + bsig1 st.e + sha2Ch st.e st.f st.g + kw.1 + kw.2) % M32
  let t2 := (bsig0 st.a + sha2Maj st.a st.b st.c) % M32
  ⟨(t1 + t2) % M32, st.a, st.b, st.c, (st.d + t1) % M32, st.e, st.f, st.g⟩

/-- Process one 64-byte block. -/
def sha2Block (st : Hash8) (block : List Nat) : Hash8 :=
  let w := extendW 48 (beWords block)
  let r := (sha256K.zip w).foldl sha2Round st
  ⟨(st.a + r.a) % M32, (st.b + r.b) % M32, (st.c + r.c) % M32, (st.d + r.d) % M32,
   (st.e + r.e) % M32, (st.f + r.f) % M32, (st.g + r.g) % M32, (st.h + r.h) % M32⟩

/-- Split a list into 64-element chunks (structural recursion on a fuel
argument so the definition reduces; the fuel is the list length, which
bounds the number of chunks). -/
def chunksGo : Nat → List Nat → List (List Nat)
  | _, [] => []
  | 0, _ :: _ => []
  | fuel + 1, a :: r => (a :: r).take 64 :: chunksGo fuel ((a :: r).drop 64)

/-- Split a list into 64-element chunks. -/
def chunks64 (l : List Nat) : List (List Nat) := chunksGo l.length l

/-- Number of zero bytes of SHA-256 padding for an `n`-byte message. -/
def padZeros (n : Nat) : Nat := (119 - n % 64) % 64

/-- The eight-byte big-endian encoding of the bit length. -/
def lenBE (l : Nat) : List Nat :=
  [l / 2 ^ 56 % 256, l / 2 ^ 48 % 256, l / 2 ^ 40 % 256, l / 2 ^ 32 % 256,
   l / 2 ^ 24 % 256, l / 2 ^ 16 % 256, l / 2 ^ 8 % 256, l % 256]

/-- SHA-256 padding of a message. -/
def sha256pad (msg : List Nat) : List Nat :=
  msg ++ 128 :: List.replicate (padZeros msg.length) 0 ++ lenBE (8 * msg.length)

/-- Serialize the final hash state to the 32 digest bytes. -/
def wordBE (w : Nat) : List Nat := [w / 16777216 % 256, w / 65536 % 256, w / 256 % 256, w % 256]

/-- Digest bytes of a hash state. -/
def digestBytes (st : Hash8) : List Nat :=
  wordBE st.a ++ wordBE st.b ++ wordBE st.c ++ wordBE st.d ++
  wordBE st.e ++ wordBE st.f ++ wordBE st.g ++ wordBE st.h

/-- Reference SHA-256: the 32-byte digest of a byte list.  Embeds the
`hashlib.sha256(content).digest()` call of `record.hash_file`. -/
def sha256 (msg : List Nat) : List Nat :=
  digestBytes ((chunks64 (sha256pad msg)).foldl sha2Block sha256init)

/-! ## record.py — base64 and hash_file -/

/-- The URL-safe base64 alphabet (embedding `base64.urlsafe_b64encode`). -/
def b64Alphabet : Str := str "ABCDEFGHIJKLMNOPQRSTUVWXYZabcdefghijklmnopqrstuvwxyz0123456789-_"

/-- Character for a 6-bit group. -/
def b64Char (n : Nat) : Char := b64Alphabet.getD n 'A'

/-- URL-safe base64 encoding with `=` padding, three input bytes to four
output characters. -/
def b64encode : List Nat → Str
  | [] => []
  | [a] => [b64Char (a / 4), b64Char (a % 4 * 16), '=', '=']
  | [a, b] => [b64Char (a / 4), b64Char (a % 4 * 16 + b / 16), b64Char (b % 16 * 4), '=']
  | a :: b :: c :: r =>
      b64Char (a / 4) :: b64Char (a % 4 * 16 + b / 16) ::
      b64Char (b % 16 * 4 + c / 64) :: b64Char (c % 64) :: b64encode r

/-- Strip trailing `=` characters (the `.rstrip(b'=')` call). -/
def rstripEq (l : Str) : Str := (l.reverse.dropWhile (· = '=')).reverse

/-- Embedding of `record.hash_file`: `"sha256=" + urlsafe-b64(digest)` with
trailing padding stripped. -/
def hash_file (content : List Nat) : Str :=
  str "sha256=" ++ rstripEq (b64encode (sha256 content))

/-! ## record.py — entries and the csv module

The `csv` module (default dialect: delimiter `,`, quote char `"`,
doublequote, non-strict, `QUOTE_MINIMAL`; the writer is constructed with
`lineterminator='\n'`) is embedded by a writer and a reader state machine
whose transitions follow CPython's `_csv.c`. -/

/-- Embedding of `record.RecordEntry` (dataclass with three string
fields). -/
structure RecordEntry where
  path : Str
  hash : Str
  size : Str
deriving DecidableEq

/-- Embedding of `RecordEntry.to_csv_row`. -/
def to_csv_row (e : RecordEntry) : List Str := [e.path, e.hash, e.size]

/-- Embedding of `RecordEntry.from_csv_row`: missing fields default to the
empty string, extra fields are ignored. -/
def from_csv_row (row : List Str) : RecordEntry :=
  ⟨row.getD 0 [], row.getD 1 [], row.getD 2 []⟩

/-- A csv writer field is quoted (QUOTE_MINIMAL) iff it contains the
delimiter, the quote char, or a character of the line terminator `"\n"` --
or it is the only field of the row and empty. -/
def fieldNeedsQuote (f : Str) : Bool :=
  f.any (fun c => c = ',' || c = '"' || c = '\n')

/-- Double every quote character of a field (doublequote escaping). -/
def escQuotes (f : Str) : Str :=
  f.foldr (fun c acc => if c = '"' then '"' :: '"' :: acc else c :: acc) []

/-- Write one csv field, quoting when required. -/
def writeField (numFields : Nat) (f : Str) : Str :=
  if fieldNeedsQuote f || (numFields = 1 && f.isEmpty) then
    '"' :: (escQuotes f ++ ['"'])
  else f

/-- Write one csv row, `\n`-terminated. -/
def writeRow (row : List Str) : Str :=
  List.intercalate [','] (row.map (writeField row.length)) ++ ['\n']

/-- Embedding of `record.format_record`: one csv row per entry. -/
def format_record (entries : List RecordEntry) : Str :=
  (entries.map (fun e => writeRow (to_csv_row e))).flatten

/-- States of the csv reader (CPython `_csv.c` parser states; the
`START_FIELD`/`IN_FIELD` split keeps the quote handling faithful). -/
inductive CsvSt where
  | startRecord
  | startField
  | inField
  | quotedField
  | quoteQuoted
  | eatCrnl
deriving DecidableEq

/-- The csv reader state machine.  `fld` is the field being accumulated,
`row` the fields of the current record, `rows` the finished records.  A
bare carriage return ends the record and any further non-newline character
is the `"new-line character seen in unquoted field"` error, exactly as in
CPython.  At end of input a pending field/record is flushed. -/
def csvRun : List Char → CsvSt → Str → List Str → List (List Str) →
    Except Str (List (List Str))
  | [], st, fld, row, rows =>
      match st with
      | .startRecord => .ok rows
      | .eatCrnl => .ok rows
      | _ => .ok (rows ++ [row ++ [fld]])
  | c :: rest, .startRecord, _, _, rows =>
      if c = '\n' then csvRun rest .startRecord [] [] (rows ++ [[]])
      else if c = '\r' then csvRun rest .eatCrnl [] [] (rows ++ [[]])
      else if c = '"' then csvRun rest .quotedField [] [] rows
      else if c = ',' then csvRun rest .startField [] [[]] rows
      else csvRun rest .inField [c] [] rows
  | c :: rest, .startField, fld, row, rows =>
      if c = '"' then csvRun rest .quotedField fld row rows
      else if c = ',' then csvRun rest .startField [] (row ++ [fld]) rows
      else if c = '\n' then csvRun rest .startRecord [] [] (rows ++ [row ++ [fld]])
      else if c = '\r' then csvRun rest .eatCrnl [] [] (rows ++ [row ++ [fld]])
      else csvRun rest .inField (fld ++ [c]) row rows
  | c :: rest, .inField, fld, row, rows =>
      if c = ',' then csvRun rest .startField [] (row ++ [fld]) rows
      else if c = '\n' then csvRun rest .startRecord [] [] (rows ++ [row ++ [fld]])
      else if c = '\r' then csvRun rest .eatCrnl [] [] (rows ++ [row ++ [fld]])
      else csvRun rest .inField (fld ++ [c]) row rows
  | c :: rest, .quotedField, fld, row, rows =>
      if c = '"' then csvRun rest .quoteQuoted fld row rows
      else csvRun rest .quotedField (fld ++ [c]) row rows
  | c :: rest, .quoteQuoted, fld, row, rows =>
      if c = '"' then csvRun rest .quotedField (fld ++ [c]) row rows
      else if c = ',' then csvRun rest .startField [] (row ++ [fld]) rows
      else if c = '\n' then csvRun rest .startRecord [] [] (rows ++ [row ++ [fld]])
      else if c = '\r' then csvRun rest .eatCrnl [] [] (rows ++ [row ++ [fld]])
      else csvRun rest .inField (fld ++ [c]) row rows
  | c :: rest, .eatCrnl, fld, row, rows =>
      if c = '\n' then csvRun rest .startRecord fld row rows
      else if c = '\r' then csvRun rest .eatCrnl fld row rows
      else .error (str "new-line character seen in unquoted field")

/-- Parse csv content into rows. -/
def csvParse (content : Str) : Except Str (List (List Str)) :=
  csvRun content .startRecord [] [] []

/-- Embedding of `record.parse_record`: csv rows, empty rows skipped, each
row turned into an entry; a csv error propagates (the Python exception). -/
def parse_record (content : Str) : Except Str (List RecordEntry) :=
  (csvParse content).map
    (fun rows => (rows.filter (fun r => !r.isEmpty)).map from_csv_row)

/-- Decimal representation of a byte count (`str(len(content))`). -/
def natStr (n : Nat) : Str := (Nat.repr n).data

/-- Embedding of `record.format_record_entry`: absent content gives an
entry with empty hash and size, otherwise the hash and decimal size of the
content. -/
def format_record_entry (path : Str) (content : Option (List Nat)) : RecordEntry :=
  match content with
  | none => ⟨path, [], []⟩
  | some c => ⟨path, hash_file c, natStr c.length⟩

/-- Embedding of `record.update_record`: drop entries for the RECORD path,
then for each new file drop entries for its path and append a fresh one,
finally append the empty self-entry.  The dict `new_files` is modelled by
an insertion-ordered association list. -/
def update_record (existing_entries : List RecordEntry)
    (new_files : List (Str × List Nat)) (record_path : Str) : List RecordEntry :=
  let entries := existing_entries.filter (fun e => !(e.path == record_path))
  let entries := new_files.foldl
    (fun acc pc => acc.filter (fun e => !(e.path == pc.1)) ++ [format_record_entry pc.1 (some pc.2)])
    entries
  entries ++ [format_record_entry record_path none]

/-! ## patcher.py — the archive patcher

`zipfile` is embedded minimally: an archive is a list of named entries,
each carrying its (decompressed) data and its compression method;
`ZipFile.read(name)` resolves a name through the name-to-info dictionary,
in which a later entry of the same name shadows an earlier one;
`ZipFile.writestr` on an archive opened with `ZIP_DEFLATED` stores the
entry with the deflate method.  The filesystem is a partial map from paths
to archives, enough to observe the source wheel, the temporary file and
the output path. -/

/-- A zip archive entry: name, decompressed data, compression method. -/
structure ZEntry where
  name : Str
  data : List Nat
  method : Nat
deriving DecidableEq

/-- The `zipfile.ZIP_STORED` constant. -/
def ZIP_STORED : Nat := 0

/-- The `zipfile.ZIP_DEFLATED` constant. -/
def ZIP_DEFLATED : Nat := 8

/-- Reading an entry by name: the name-to-info dictionary of `zipfile`
maps a name to its last occurrence in the archive. -/
def zipRead (entries : List ZEntry) (name : Str) : List Nat :=
  ((entries.filter (fun e => e.name == name)).getLastD ⟨name, [], 0⟩).data

/-- Bytes of a string (`str.encode("utf-8")`, exact on the ASCII content
produced here). -/
def strBytes (s : Str) : List Nat := s.map Char.toNat

/-- An open `WheelPatcher` session: the dist-info directory name, the
source archive entries, the parsed RECORD, and the insertion-ordered
staged-file dictionary `_files_to_add`. -/
structure Session where
  distInfoDir : Str
  entries : List ZEntry
  existingRecord : List RecordEntry
  filesToAdd : List (Str × List Nat)
deriving DecidableEq

/-- The session's RECORD path, `f"{dist_info_dir}/RECORD"`. -/
def Session.recordPath (s : Session) : Str := s.distInfoDir ++ str "/RECORD"

/-- The source archive's name list. -/
def Session.namelist (s : Session) : List Str := s.entries.map (·.name)

/-- Membership test of the staged-file dictionary. -/
def dictHas (m : List (Str × List Nat)) (k : Str) : Bool := m.any (fun p => p.1 == k)

/-- Insertion into the staged-file dictionary: an existing key keeps its
position and gets the new value (Python dict assignment); a new key is
appended. -/
def dictInsert (m : List (Str × List Nat)) (k : Str) (v : List Nat) :
    List (Str × List Nat) :=
  if dictHas m k then m.map (fun p => if p.1 = k then (k, v) else p)
  else m ++ [(k, v)]

/-- Embedding of `WheelPatcher._resolve_dist_info_path`: a literal
`.dist-info/` prefix is replaced by the actual dist-info directory name
(the code appends `path[len(".dist-info"):]`, which starts with the
slash). -/
def resolve_dist_info_path (distInfoDir : Str) (path : Str) : Str :=
  if (str ".dist-info/").isPrefixOf path then
    distInfoDir ++ path.drop (str ".dist-info").length
  else path

/-- Embedding of `WheelPatcher.add_file`.  The source file is described by
its existence, file-kind, base name and content (the content is read only
on the success path, after every check).  A `None` destination defaults to
the source base name; the destination then goes through resolve,
normalize and validate, the conflict checks run unless `overwrite`, and
the content is staged. -/
def add_file (s : Session) (sourceExists sourceIsFile : Bool) (sourceName : Str)
    (sourceContent : List Nat) (dest? : Option Str) (overwrite : Bool) :
    Except WheelErr Session :=
  if !sourceExists then .error .sourceNotFound
  else if !sourceIsFile then .error .notAFile
  else
    let dest0 := dest?.getD sourceName
    let dest1 := resolve_dist_info_path s.distInfoDir dest0
    let dest := normalize_path dest1
    match validate_path_safe dest with
    | .error e => .error e
    | .ok _ =>
      if !overwrite && s.namelist.contains dest then .error (.alreadyExists dest)
      else if !overwrite && dictHas s.filesToAdd dest then .error (.alreadyQueued dest)
      else .ok { s with filesToAdd := dictInsert s.filesToAdd dest sourceContent }

/-- The archive `save` constructs in the temporary file: every source
entry except the RECORD file, re-read and re-written with the deflate
method, then each staged file, then the serialized updated RECORD. -/
def build_archive (s : Session) : List ZEntry :=
  ((s.namelist.filter (fun n => !(n == s.recordPath))).map
      (fun item => ⟨item, zipRead s.entries item, ZIP_DEFLATED⟩))
  ++ (s.filesToAdd.map (fun pc => ⟨pc.1, pc.2, ZIP_DEFLATED⟩))
  ++ [⟨s.recordPath,
       strBytes (format_record (update_record s.existingRecord s.filesToAdd s.recordPath)),
       ZIP_DEFLATED⟩]

/-- The filesystem, restricted to archive files: a partial map from paths
to archives. -/
def FS : Type := Str → Option (List ZEntry)

/-- Pointwise filesystem update (`none` erases). -/
def FS.update (fs : FS) (p : Str) (v : Option (List ZEntry)) : FS :=
  fun q => if q = p then v else fs q

/-- Embedding of `WheelPatcher.save` with fault injection.  With nothing
staged it fails with `NothingToSave` before touching the filesystem.
Otherwise the construction writes the archive entries into the fresh
temporary file; `failAt = some k` with `k ≤ length` makes the `k`-th step
(or, at `k = length`, the final rename) raise, upon which the handler
unlinks the partially written temporary file and surfaces `WriteFailure`;
without a fault the temporary file is atomically renamed onto the output
path.  The method assigns to no session attribute, so the session is
returned unchanged on every path. -/
def save (s : Session) (fs : FS) (outputPath tempPath : Str) (failAt : Option Nat) :
    Except WheelErr Unit × FS × Session :=
  if s.filesToAdd.isEmpty then (.error .nothingToSave, fs, s)
  else
    let arch := build_archive s
    match failAt with
    | some k =>
      if k ≤ arch.length then
        (.error .writeFailure, (FS.update fs tempPath (some (arch.take k))).update tempPath none, s)
      else
        (.ok (), (FS.update fs tempPath none).update outputPath (some arch), s)
    | none => (.ok (), (FS.update fs tempPath none).update outputPath (some arch), s)

/-! ## Helper lemmas -/

/-- The digest serialization always yields 32 bytes. -/
theorem digestBytes_length (st : Hash8) : (digestBytes st).length = 32 := by
  simp [digestBytes, wordBE]

/-- The SHA-256 digest of any message has 32 bytes. -/
theorem sha256_length (msg : List Nat) : (sha256 msg).length = 32 :=
  digestBytes_length _

/-- Every base64 alphabet character differs from the padding character. -/
theorem b64Char_ne_pad (n : Nat) : b64Char n ≠ '=' := by
  by_cases h : n < 64
  · have : ∀ m : Nat, m < 64 → b64Alphabet.getD m 'A' ≠ '=' := by decide
    exact this n h
  · have hlen : b64Alphabet.length = 64 := by decide
    unfold b64Char
    rw [List.getD_eq_getElem?_getD, List.getElem?_eq_none (by omega)]
    decide

/-- Stripping trailing padding distributes over an append whose right part
does not strip to nothing. -/
theorem rstripEq_append (u v : Str) (h : rstripEq v ≠ []) :
    rstripEq (u ++ v) = u ++ rstripEq v := by
  unfold rstripEq at *
  rw [List.reverse_append, List.dropWhile_append]
  have hne : ¬ (v.reverse.dropWhile (fun c => decide (c = '='))).isEmpty = true := by
    intro hcontra
    exact h (by simp [List.isEmpty_iff.mp hcontra])
  rw [if_neg hne, List.reverse_append, List.reverse_reverse]

/-- Length of the stripped encoding of a list of `3k+2` bytes: `4k+3`
characters (one padding character stripped). -/
theorem rstripEq_b64encode_length :
    ∀ l : List Nat, l.length % 3 = 2 →
      (rstripEq (b64encode l)).length = l.length / 3 * 4 + 3
  | [], h => by simp at h
  | [a], h => by simp at h
  | [a, b], h => by
      have h3 : b64Char (b % 16 * 4) ≠ '=' := b64Char_ne_pad _
      simp [b64encode, rstripEq, List.dropWhile, h3]
  | a :: b :: c :: r, h => by
      have hlen : (a :: b :: c :: r).length = r.length + 3 := by simp
      have hr : r.length % 3 = 2 := by omega
      have ih := rstripEq_b64encode_length r hr
      have hne : rstripEq (b64encode r) ≠ [] := by
        intro hcontra
        rw [hcontra] at ih
        simp at ih
      have henc : b64encode (a :: b :: c :: r) =
          [b64Char (a / 4), b64Char (a % 4 * 16 + b / 16),
           b64Char (b % 16 * 4 + c / 64), b64Char (c % 64)] ++ b64encode r := by
        simp [b64encode]
      rw [henc, rstripEq_append _ _ hne]
      simp only [List.length_append, List.length_cons, List.length_nil, ih, hlen]
      omega

/-- Elements of a slash-stripped list come from the original list. -/
theorem mem_dropLeadingSlashes {c : Char} : ∀ {l : Str}, c ∈ dropLeadingSlashes l → c ∈ l
  | [], h => h
  | a :: r, h => by
      by_cases ha : a = '/'
      · rw [dropLeadingSlashes, if_pos ha] at h
        exact List.mem_cons_of_mem a (mem_dropLeadingSlashes h)
      · rwa [dropLeadingSlashes, if_neg ha] at h

/-- A slash-stripped list is empty or starts with a non-slash. -/
theorem dropLeadingSlashes_shape : ∀ l : Str,
    dropLeadingSlashes l = [] ∨
    ∃ c r, dropLeadingSlashes l = c :: r ∧ c ≠ '/'
  | [] => Or.inl rfl
  | a :: r => by
      by_cases ha : a = '/'
      · rw [dropLeadingSlashes, if_pos ha]
        exact dropLeadingSlashes_shape r
      · exact Or.inr ⟨a, r, by rw [dropLeadingSlashes, if_neg ha], ha⟩

/-- Stripping leading slashes is idempotent. -/
theorem dropLeadingSlashes_idem (l : Str) :
    dropLeadingSlashes (dropLeadingSlashes l) = dropLeadingSlashes l := by
  rcases dropLeadingSlashes_shape l with h | ⟨c, r, h, hc⟩
  · rw [h]; rfl
  · rw [h, dropLeadingSlashes, if_neg hc]

/-- A normalized path is never absolute. -/
theorem isabs_normalize (p : Str) : isabs (normalize_path p) = false := by
  unfold normalize_path
  rcases dropLeadingSlashes_shape (p.map (fun c => if c = '\\' then '/' else c)) with h | ⟨c, r, h, hc⟩
  · rw [h]; rfl
  · rw [h]
    simp [isabs, hc]

/-- Backslash replacement leaves no backslashes behind. -/
theorem no_backslash_of_replace {c : Char} {p : Str}
    (h : c ∈ p.map (fun c => if c = '\\' then '/' else c)) : c ≠ '\\' := by
  obtain ⟨a, _, ha⟩ := List.mem_map.mp h
  by_cases hb : a = '\\'
  · rw [if_pos hb] at ha
    rw [← ha]; decide
  · rw [if_neg hb] at ha
    rw [← ha]; exact hb

/-- Normalization is idempotent: a second pass changes nothing. -/
theorem normalize_path_idem (p : Str) :
    normalize_path (normalize_path p) = normalize_path p := by
  have hnb : ∀ c ∈ normalize_path p, c ≠ '\\' := fun c hc =>
    no_backslash_of_replace (mem_dropLeadingSlashes hc)
  have hmap : (normalize_path p).map (fun c => if c = '\\' then '/' else c)
      = normalize_path p := by
    rw [List.map_congr_left (fun c hc => if_neg (hnb c hc))]
    exact List.map_id _
  rw [normalize_path, hmap]
  unfold normalize_path
  exact dropLeadingSlashes_idem _

/-- On an already-normalized path, validation either reports traversal or
succeeds; the absolute-path branch is unreachable because normalization
has stripped every leading slash. -/
theorem validate_normalize_cases (p : Str) :
    validate_path_safe (normalize_path p)
        = .error (.pathTraversal (normalize_path p)) ∨
    validate_path_safe (normalize_path p) = .ok () := by
  unfold validate_path_safe
  rw [normalize_path_idem]
  by_cases h : ['.', '.'] ∈ List.splitOn '/' (normalize_path p)
  · left; rw [if_pos h]
  · right
    rw [if_neg h, if_neg]
    rw [isabs_normalize]
    simp

/-- A path of which `.dist-info/` is a literal prefix decomposes as that
prefix followed by a remainder. -/
theorem distinfo_prefix_decomp (d : Str) (h : (str ".dist-info/").isPrefixOf d = true) :
    ∃ t, d = str ".dist-info/" ++ t := by
  rw [List.isPrefixOf_iff_prefix] at h
  exact h.imp (fun t ht => ht.symm)

/-- The path of a formatted entry is the given path. -/
@[simp] theorem format_record_entry_path (p : Str) (c : Option (List Nat)) :
    (format_record_entry p c).path = p := by cases c <;> rfl

/-- Folding the new files over a base list removes from the base every
entry whose path is a new-file key and appends one fresh entry per key,
provided the keys are pairwise distinct (they are: `new_files` is a
dict). -/
theorem update_fold (nf : List (Str × List Nat)) (base : List RecordEntry)
    (hnd : (nf.map Prod.fst).Nodup) :
    nf.foldl (fun acc pc =>
        acc.filter (fun e => !(e.path == pc.1)) ++ [format_record_entry pc.1 (some pc.2)]) base
      = base.filter (fun e => !((nf.map Prod.fst).contains e.path))
        ++ nf.map (fun pc => format_record_entry pc.1 (some pc.2)) := by
  induction nf generalizing base with
  | nil => simp
  | cons p rest ih =>
      simp only [List.map_cons, List.nodup_cons] at hnd
      obtain ⟨hp, hrest⟩ := hnd
      simp only [List.foldl_cons]
      rw [ih _ hrest, List.filter_append, List.filter_filter]
      have hsingle : List.filter (fun e => !((rest.map Prod.fst).contains e.path))
          [format_record_entry p.1 (some p.2)] = [format_record_entry p.1 (some p.2)] := by
        simp [List.filter_cons, hp]
      rw [hsingle]
      rw [List.filter_congr (l := base)
        (q := fun e => !(((p.1 :: rest.map Prod.fst) : List Str).contains e.path))
        (fun e _ => by simp [Bool.and_comm])]
      simp [List.append_assoc]

/-- Structure of `update_record` for distinct new-file keys: surviving
original entries (those matching neither the RECORD path nor a new-file
key) in order, then one fresh entry per new file in order, then the
self-entry. -/
theorem update_record_structure (existing : List RecordEntry)
    (nf : List (Str × List Nat)) (rp : Str) (hnd : (nf.map Prod.fst).Nodup) :
    update_record existing nf rp
      = existing.filter (fun e => !(e.path == rp) && !((nf.map Prod.fst).contains e.path))
        ++ nf.map (fun pc => format_record_entry pc.1 (some pc.2))
        ++ [format_record_entry rp none] := by
  unfold update_record
  dsimp only
  rw [update_fold nf _ hnd, List.filter_filter]
  rw [List.filter_congr (l := existing)
    (q := fun e => !(e.path == rp) && !((nf.map Prod.fst).contains e.path))
    (fun e _ => by simp [Bool.and_comm])]

/-- In a dict with pairwise-distinct keys, filtering for one present key
yields exactly that binding. -/
theorem filter_key_nodup : ∀ (m : List (Str × List Nat)) (d : Str) (ct : List Nat),
    (m.map Prod.fst).Nodup → (d, ct) ∈ m →
    m.filter (fun pc => pc.1 == d) = [(d, ct)]
  | [], d, ct, _, h => absurd h (List.not_mem_nil _)
  | p :: rest, d, ct, hnd, h => by
      simp only [List.map_cons, List.nodup_cons] at hnd
      obtain ⟨hp, hrest⟩ := hnd
      rcases List.mem_cons.mp h with heq | hmem
      · subst heq
        rw [List.filter_cons, if_pos (by simp)]
        have hnone : rest.filter (fun pc => pc.1 == d) = [] := by
          rw [List.filter_eq_nil_iff]
          intro pc hpc
          simp only [beq_iff_eq]
          intro hcontra
          exact hp (hcontra ▸ List.mem_map.mpr ⟨pc, hpc, rfl⟩)
        rw [hnone]
      · have hne : (p.1 == d) = false := by
          rw [beq_eq_false_iff_ne]
          intro hcontra
          exact hp (hcontra ▸ List.mem_map.mpr ⟨(d, ct), hmem, rfl⟩)
        rw [List.filter_cons, if_neg (by simp [hne])]
        exact filter_key_nodup rest d ct hrest hmem

/-- Dict insertion keeps the keys pairwise distinct. -/
theorem dictInsert_keys_nodup (m : List (Str × List Nat)) (k : Str) (v : List Nat)
    (hnd : (m.map Prod.fst).Nodup) : ((dictInsert m k v).map Prod.fst).Nodup := by
  unfold dictInsert
  by_cases h : dictHas m k = true
  · rw [if_pos h]
    have : (m.map (fun p => if p.1 = k then (k, v) else p)).map Prod.fst = m.map Prod.fst := by
      rw [List.map_map]
      apply List.map_congr_left
      intro p _
      by_cases hp : p.1 = k
      · simp [Function.comp, hp]
      · simp [Function.comp, hp]
    rw [this]
    exact hnd
  · rw [if_neg h]
    rw [List.map_append, List.nodup_append]
    refine ⟨hnd, by simp, ?_⟩
    intro a ha hb
    simp only [List.map_cons, List.map_nil, List.mem_singleton] at hb
    subst hb
    apply h
    obtain ⟨p, hp, hpe⟩ := List.mem_map.mp ha
    unfold dictHas
    rw [List.any_eq_true]
    exact ⟨p, hp, by simp [hpe]⟩

/-- Dict insertion makes the inserted binding a member. -/
theorem dictInsert_mem (m : List (Str × List Nat)) (k : Str) (v : List Nat) :
    (k, v) ∈ dictInsert m k v := by
  unfold dictInsert
  by_cases h : dictHas m k = true
  · rw [if_pos h]
    unfold dictHas at h
    rw [List.any_eq_true] at h
    obtain ⟨p, hp, hpk⟩ := h
    rw [beq_iff_eq] at hpk
    exact List.mem_map.mpr ⟨p, hp, by rw [if_pos hpk]⟩
  · rw [if_neg h]
    exact List.mem_append_right _ (List.mem_singleton.mpr rfl)

/-- Dict insertion never yields the empty dict. -/
theorem dictInsert_ne_empty (m : List (Str × List Nat)) (k : Str) (v : List Nat) :
    (dictInsert m k v).isEmpty = false := by
  rw [List.isEmpty_eq_false_iff_exists_mem]
  exact ⟨(k, v), dictInsert_mem m k v⟩

/-- The full resolve-normalize pipeline is the identity on a destination
with no backslash, no leading slash and no placeholder prefix. -/
theorem pipeline_id (M d : Str) (h1 : '\\' ∉ d) (h2 : isabs d = false)
    (h3 : (str ".dist-info/").isPrefixOf d = false) :
    normalize_path (resolve_dist_info_path M d) = d := by
  rw [resolve_dist_info_path, if_neg (by simp [h3])]
  unfold normalize_path
  have hmap : d.map (fun c => if c = '\\' then '/' else c) = d := by
    rw [List.map_congr_left (fun c hc => if_neg (fun hcc => h1 (by rw [← hcc]; exact hc)))]
    exact List.map_id _
  rw [hmap]
  cases d with
  | nil => rfl
  | cons c r =>
      have hc : ¬ c = '/' := by
        simp only [isabs, decide_eq_false_iff_not] at h2
        exact h2
      rw [dropLeadingSlashes, if_neg hc]

/-! ### csv reader stepping lemmas -/

/-- Reader step: a quote at field start opens a quoted field. -/
theorem step_sf_quote (r : Str) (fld : Str) (row : List Str) (rows : List (List Str)) :
    csvRun ('"' :: r) .startField fld row rows = csvRun r .quotedField fld row rows := rfl

/-- Reader step: a comma at field start saves an empty-so-far field. -/
theorem step_sf_comma (r : Str) (fld : Str) (row : List Str) (rows : List (List Str)) :
    csvRun (',' :: r) .startField fld row rows
      = csvRun r .startField [] (row ++ [fld]) rows := rfl

/-- Reader step: a newline at field start ends the record. -/
theorem step_sf_newline (r : Str) (fld : Str) (row : List Str) (rows : List (List Str)) :
    csvRun ('\n' :: r) .startField fld row rows
      = csvRun r .startRecord [] [] (rows ++ [row ++ [fld]]) := rfl

/-- Reader step: an ordinary character at field start begins an unquoted
field. -/
theorem step_sf_ord (c : Char) (r : Str) (fld : Str) (row : List Str)
    (rows : List (List Str)) (h1 : c ≠ '"') (h2 : c ≠ ',') (h3 : c ≠ '\n') (h4 : c ≠ '\r') :
    csvRun (c :: r) .startField fld row rows = csvRun r .inField (fld ++ [c]) row rows := by
  rw [csvRun, if_neg h1, if_neg h2, if_neg h3, if_neg h4]

/-- Reader step: a comma in an unquoted field saves the field. -/
theorem step_if_comma (r : Str) (fld : Str) (row : List Str) (rows : List (List Str)) :
    csvRun (',' :: r) .inField fld row rows
      = csvRun r .startField [] (row ++ [fld]) rows := rfl

/-- Reader step: a newline in an unquoted field ends the record. -/
theorem step_if_newline (r : Str) (fld : Str) (row : List Str) (rows : List (List Str)) :
    csvRun ('\n' :: r) .inField fld row rows
      = csvRun r .startRecord [] [] (rows ++ [row ++ [fld]]) := rfl

/-- Reader step: an ordinary character extends an unquoted field. -/
theorem step_if_ord (c : Char) (r : Str) (fld : Str) (row : List Str)
    (rows : List (List Str)) (h2 : c ≠ ',') (h3 : c ≠ '\n') (h4 : c ≠ '\r') :
    csvRun (c :: r) .inField fld row rows = csvRun r .inField (fld ++ [c]) row rows := by
  rw [csvRun, if_neg h2, if_neg h3, if_neg h4]

/-- Reader step: a quote inside a quoted field switches to the
quote-seen state. -/
theorem step_qf_quote (r : Str) (fld : Str) (row : List Str) (rows : List (List Str)) :
    csvRun ('"' :: r) .quotedField fld row rows = csvRun r .quoteQuoted fld row rows := rfl

/-- Reader step: any other character extends the quoted field. -/
theorem step_qf_other (c : Char) (r : Str) (fld : Str) (row : List Str)
    (rows : List (List Str)) (h : c ≠ '"') :
    csvRun (c :: r) .quotedField fld row rows
      = csvRun r .quotedField (fld ++ [c]) row rows := by
  rw [csvRun, if_neg h]

/-- Reader step: a comma after a closing quote saves the field. -/
theorem step_qq_comma (r : Str) (fld : Str) (row : List Str) (rows : List (List Str)) :
    csvRun (',' :: r) .quoteQuoted fld row rows
      = csvRun r .startField [] (row ++ [fld]) rows := rfl

/-- Reader step: a newline after a closing quote ends the record. -/
theorem step_qq_newline (r : Str) (fld : Str) (row : List Str) (rows : List (List Str)) :
    csvRun ('\n' :: r) .quoteQuoted fld row rows
      = csvRun r .startRecord [] [] (rows ++ [row ++ [fld]]) := rfl

/-- Reader step at record start: a quote opens a quoted first field. -/
theorem step_sr_quote (r : Str) (rows : List (List Str)) :
    csvRun ('"' :: r) .startRecord [] [] rows = csvRun r .quotedField [] [] rows := rfl

/-- Reader step at record start: a comma saves an empty first field. -/
theorem step_sr_comma (r : Str) (rows : List (List Str)) :
    csvRun (',' :: r) .startRecord [] [] rows = csvRun r .startField [] [[]] rows := rfl

/-- Reader step at record start: an ordinary character begins an unquoted
first field. -/
theorem step_sr_ord (c : Char) (r : Str) (rows : List (List Str))
    (h1 : c ≠ '"') (h2 : c ≠ ',') (h3 : c ≠ '\n') (h4 : c ≠ '\r') :
    csvRun (c :: r) .startRecord [] [] rows = csvRun r .inField [c] [] rows := by
  rw [csvRun, if_neg h3, if_neg h4, if_neg h1, if_neg h2]

/-- Consuming a run of ordinary characters in an unquoted field. -/
theorem consume_inField : ∀ (f : Str) (rest : Str) (fld : Str) (row : List Str)
    (rows : List (List Str)),
    (∀ c ∈ f, c ≠ ',' ∧ c ≠ '"' ∧ c ≠ '\n' ∧ c ≠ '\r') →
    csvRun (f ++ rest) .inField fld row rows = csvRun rest .inField (fld ++ f) row rows
  | [], rest, fld, row, rows, _ => by simp
  | c :: f', rest, fld, row, rows, h => by
      have hc := h c (List.mem_cons_self c f')
      rw [List.cons_append, step_if_ord c _ fld row rows hc.1 hc.2.2.1 hc.2.2.2]
      rw [consume_inField f' rest (fld ++ [c]) row rows
        (fun x hx => h x (List.mem_cons_of_mem c hx))]
      rw [List.append_assoc]
      rfl

/-- Consuming a run of non-quote characters in a quoted field. -/
theorem consume_quoted : ∀ (f : Str) (rest : Str) (fld : Str) (row : List Str)
    (rows : List (List Str)),
    (∀ c ∈ f, c ≠ '"') →
    csvRun (f ++ rest) .quotedField fld row rows
      = csvRun rest .quotedField (fld ++ f) row rows
  | [], rest, fld, row, rows, _ => by simp
  | c :: f', rest, fld, row, rows, h => by
      rw [List.cons_append, step_qf_other c _ fld row rows (h c (List.mem_cons_self c f'))]
      rw [consume_quoted f' rest (fld ++ [c]) row rows
        (fun x hx => h x (List.mem_cons_of_mem c hx))]
      rw [List.append_assoc]
      rfl

/-- Quote doubling is the identity on a field with no quote character. -/
theorem escQuotes_id : ∀ f : Str, '"' ∉ f → escQuotes f = f
  | [], _ => rfl
  | c :: f', h => by
      have hc : ¬ c = '"' := fun hcc => h (by rw [← hcc] at *; exact List.mem_cons_self c f')
      show List.foldr _ [] (c :: f') = _
      rw [List.foldr_cons]
      show (if c = '"' then _ else c :: escQuotes f') = _
      rw [if_neg hc, escQuotes_id f' (fun hx => h (List.mem_cons_of_mem c hx))]

/-- A field the writer leaves unquoted consists of ordinary characters
(given that it holds no carriage return). -/
theorem ord_of_not_needsQuote (f : Str) (hr : ∀ c ∈ f, c ≠ '\r')
    (h : fieldNeedsQuote f = false) :
    ∀ c ∈ f, c ≠ ',' ∧ c ≠ '"' ∧ c ≠ '\n' ∧ c ≠ '\r' := by
  intro c hc
  unfold fieldNeedsQuote at h
  rw [List.any_eq_false] at h
  have := h c hc
  simp only [Bool.or_eq_true, decide_eq_true_eq, not_or] at this
  exact ⟨this.1.1, this.1.2, this.2, hr c hc⟩

/-- Reading one written field followed by a comma, from field start. -/
theorem field_comma_sf (f rest : Str) (row : List Str) (rows : List (List Str))
    (hf : ∀ c ∈ f, c ≠ ',' ∧ c ≠ '"' ∧ c ≠ '\r') :
    csvRun (writeField 3 f ++ ',' :: rest) .startField [] row rows
      = csvRun rest .startField [] (row ++ [f]) rows := by
  by_cases hq : fieldNeedsQuote f = true
  · rw [writeField, if_pos (by rw [hq]; rfl)]
    rw [escQuotes_id f (fun hc => (hf '"' hc).2.1 rfl)]
    have hsh : ('"' :: (f ++ ['"'])) ++ ',' :: rest = '"' :: (f ++ '"' :: ',' :: rest) := by
      simp
    rw [hsh, step_sf_quote, consume_quoted f _ [] row rows (fun c hc => (hf c hc).2.1)]
    rw [List.nil_append, step_qf_quote, step_qq_comma]
  · have hq2 : fieldNeedsQuote f = false := Bool.eq_false_iff.mpr hq
    rw [writeField, if_neg (by rw [hq2]; simp)]
    have hord := ord_of_not_needsQuote f (fun c hc => (hf c hc).2.2) hq2
    cases f with
    | nil => rw [List.nil_append, step_sf_comma]
    | cons c f' =>
        have hc := hord c (List.mem_cons_self c f')
        rw [List.cons_append,
          step_sf_ord c _ [] row rows hc.2.1 hc.1 hc.2.2.1 hc.2.2.2,
          consume_inField f' _ ([] ++ [c]) row rows
            (fun x hx => hord x (List.mem_cons_of_mem c hx)),
          step_if_comma]
        simp

/-- Reading one written field followed by a newline, from field start. -/
theorem field_newline_sf (f rest : Str) (row : List Str) (rows : List (List Str))
    (hf : ∀ c ∈ f, c ≠ ',' ∧ c ≠ '"' ∧ c ≠ '\r') :
    csvRun (writeField 3 f ++ '\n' :: rest) .startField [] row rows
      = csvRun rest .startRecord [] [] (rows ++ [row ++ [f]]) := by
  by_cases hq : fieldNeedsQuote f = true
  · rw [writeField, if_pos (by rw [hq]; rfl)]
    rw [escQuotes_id f (fun hc => (hf '"' hc).2.1 rfl)]
    have hsh : ('"' :: (f ++ ['"'])) ++ '\n' :: rest = '"' :: (f ++ '"' :: '\n' :: rest) := by
      simp
    rw [hsh, step_sf_quote, consume_quoted f _ [] row rows (fun c hc => (hf c hc).2.1)]
    rw [List.nil_append, step_qf_quote, step_qq_newline]
  · have hq2 : fieldNeedsQuote f = false := Bool.eq_false_iff.mpr hq
    rw [writeField, if_neg (by rw [hq2]; simp)]
    have hord := ord_of_not_needsQuote f (fun c hc => (hf c hc).2.2) hq2
    cases f with
    | nil => rw [List.nil_append, step_sf_newline]
    | cons c f' =>
        have hc := hord c (List.mem_cons_self c f')
        rw [List.cons_append,
          step_sf_ord c _ [] row rows hc.2.1 hc.1 hc.2.2.1 hc.2.2.2,
          consume_inField f' _ ([] ++ [c]) row rows
            (fun x hx => hord x (List.mem_cons_of_mem c hx)),
          step_if_newline]
        simp

/-- Reading one written field followed by a comma, from record start (the
first field of a row). -/
theorem field_comma_sr (f rest : Str) (rows : List (List Str))
    (hf : ∀ c ∈ f, c ≠ ',' ∧ c ≠ '"' ∧ c ≠ '\r') :
    csvRun (writeField 3 f ++ ',' :: rest) .startRecord [] [] rows
      = csvRun rest .startField [] [f] rows := by
  by_cases hq : fieldNeedsQuote f = true
  · rw [writeField, if_pos (by rw [hq]; rfl)]
    rw [escQuotes_id f (fun hc => (hf '"' hc).2.1 rfl)]
    have hsh : ('"' :: (f ++ ['"'])) ++ ',' :: rest = '"' :: (f ++ '"' :: ',' :: rest) := by
      simp
    rw [hsh, step_sr_quote, consume_quoted f _ [] [] rows (fun c hc => (hf c hc).2.1)]
    rw [List.nil_append, step_qf_quote, step_qq_comma]
    rfl
  · have hq2 : fieldNeedsQuote f = false := Bool.eq_false_iff.mpr hq
    rw [writeField, if_neg (by rw [hq2]; simp)]
    have hord := ord_of_not_needsQuote f (fun c hc => (hf c hc).2.2) hq2
    cases f with
    | nil => rw [List.nil_append, step_sr_comma]
    | cons c f' =>
        have hc := hord c (List.mem_cons_self c f')
        rw [List.cons_append,
          step_sr_ord c _ rows hc.2.1 hc.1 hc.2.2.1 hc.2.2.2,
          consume_inField f' _ [c] [] rows
            (fun x hx => hord x (List.mem_cons_of_mem c hx)),
          step_if_comma]
        rfl

/-- Membership form of the no-special-characters condition. -/
theorem fieldCond (f : Str) (h : ',' ∉ f ∧ '"' ∉ f ∧ '\r' ∉ f) :
    ∀ c ∈ f, c ≠ ',' ∧ c ≠ '"' ∧ c ≠ '\r' :=
  fun _ hc => ⟨fun e => h.1 (e ▸ hc), fun e => h.2.1 (e ▸ hc), fun e => h.2.2 (e ▸ hc)⟩

/-- Reading one whole written three-field row appends exactly that row. -/
theorem csvRun_row3 (p hs sz : Str) (rest : Str) (rows : List (List Str))
    (hp : ∀ c ∈ p, c ≠ ',' ∧ c ≠ '"' ∧ c ≠ '\r')
    (hh : ∀ c ∈ hs, c ≠ ',' ∧ c ≠ '"' ∧ c ≠ '\r')
    (hz : ∀ c ∈ sz, c ≠ ',' ∧ c ≠ '"' ∧ c ≠ '\r') :
    csvRun (writeRow [p, hs, sz] ++ rest) .startRecord [] [] rows
      = csvRun rest .startRecord [] [] (rows ++ [[p, hs, sz]]) := by
  have hshape : writeRow [p, hs, sz] ++ rest
      = writeField 3 p ++ ',' ::
          (writeField 3 hs ++ ',' :: (writeField 3 sz ++ '\n' :: rest)) := by
    simp [writeRow, List.intercalate, List.intersperse, List.append_assoc]
  rw [hshape, field_comma_sr p _ rows hp, field_comma_sf hs _ [p] rows hh,
    field_newline_sf sz _ ([p] ++ [hs]) rows hz]
  simp

/-- Reading the writer's serialization of a manifest yields exactly its
rows. -/
theorem csvRun_format : ∀ (m : List RecordEntry) (rows : List (List Str)),
    (∀ e ∈ m, ∀ f ∈ [e.path, e.hash, e.size], ',' ∉ f ∧ '"' ∉ f ∧ '\r' ∉ f) →
    csvRun ((m.map (fun e => writeRow (to_csv_row e))).flatten) .startRecord [] [] rows
      = .ok (rows ++ m.map to_csv_row)
  | [], rows, _ => by simp [csvRun]
  | e :: m', rows, h => by
      rw [List.map_cons, List.flatten_cons]
      have he := h e (List.mem_cons_self e m')
      have hrow : to_csv_row e = [e.path, e.hash, e.size] := rfl
      rw [hrow]
      rw [csvRun_row3 e.path e.hash e.size _ rows
        (fieldCond _ (he e.path (by simp)))
        (fieldCond _ (he e.hash (by simp)))
        (fieldCond _ (he e.size (by simp)))]
      rw [csvRun_format m' (rows ++ [[e.path, e.hash, e.size]])
        (fun x hx => h x (List.mem_cons_of_mem e hx))]
      simp [to_csv_row]

/-! ## Claim theorems -/

/-- C4: for every byte string `c`, `hash_file c` is deterministic, equals
the string `sha256=` followed by exactly 43 characters, and those 43
characters are the URL-safe base64 encoding, with trailing `=` padding
stripped, of the 32-byte SHA-256 digest of `c` computed by the reference
SHA-256 definition of this file. -/
theorem c4_hash_file_format (c : List Nat) :
    hash_file c = str "sha256=" ++ rstripEq (b64encode (sha256 c)) ∧
    (sha256 c).length = 32 ∧
    (rstripEq (b64encode (sha256 c))).length = 43 ∧
    ∀ c₂ : List Nat, c = c₂ → hash_file c = hash_file c₂ := by
  refine ⟨rfl, sha256_length c, ?_, fun c₂ hc => hc ▸ rfl⟩
  have h := rstripEq_b64encode_length (sha256 c) (by rw [sha256_length])
  rw [sha256_length] at h
  simpa using h

/-- C1 counterexample: an absolute destination does not fail with
`AbsolutePath` (or at all): `add_file` normalizes the destination --
stripping every leading slash -- before calling `validate_path_safe`, so
`/etc/passwd` is accepted and staged at `etc/passwd`. -/
theorem c1_counterexample :
    isabs (str "/etc/passwd") = true ∧
    add_file ⟨str "pkg.dist-info", [], [], []⟩ true true (str "x.txt") [104]
        (some (str "/etc/passwd")) false
      = .ok ⟨str "pkg.dist-info", [], [], [(str "etc/passwd", [104])]⟩ := by
  exact ⟨by decide, by rfl⟩

/-- C1 amended: with a readable source file, `add_file` fails with
`PathTraversal` whenever a slash-separated segment of the
resolved-and-normalized destination equals `..`, before any content is
staged (the staged-file map of the returned state is unreachable: the
result is an error); but `add_file` never fails with `AbsolutePath` for
any input, because normalization strips leading slashes before
validation. -/
theorem c1_add_file_traversal (s : Session) (nm : Str) (ct : List Nat)
    (d : Str) (ow : Bool)
    (h : ['.', '.'] ∈ List.splitOn '/'
      (normalize_path (resolve_dist_info_path s.distInfoDir d))) :
    add_file s true true nm ct (some d) ow
      = .error (.pathTraversal (normalize_path (resolve_dist_info_path s.distInfoDir d))) ∧
    ∀ (s₂ : Session) (ex fi : Bool) (nm₂ : Str) (ct₂ : List Nat)
      (d₂ : Option Str) (ow₂ : Bool) (p : Str),
      add_file s₂ ex fi nm₂ ct₂ d₂ ow₂ ≠ .error (.absolutePath p) := by
  constructor
  · unfold add_file
    simp only [Bool.not_true, Bool.false_eq_true, if_false, Option.getD_some]
    have hv : validate_path_safe (normalize_path (resolve_dist_info_path s.distInfoDir d))
        = .error (.pathTraversal (normalize_path (resolve_dist_info_path s.distInfoDir d))) := by
      unfold validate_path_safe
      rw [normalize_path_idem, if_pos h]
    rw [hv]
  · intro s₂ ex fi nm₂ ct₂ d₂ ow₂ p
    cases ex with
    | false => simp [add_file]
    | true =>
      cases fi with
      | false => simp [add_file]
      | true =>
        unfold add_file
        simp only [Bool.not_true, Bool.false_eq_true, if_false]
        rcases validate_normalize_cases
            (resolve_dist_info_path s₂.distInfoDir (d₂.getD nm₂)) with hv | hv <;>
          rw [hv] <;> dsimp only
        · simp
        · by_cases h1 : (!ow₂ && s₂.namelist.contains
              (normalize_path (resolve_dist_info_path s₂.distInfoDir (d₂.getD nm₂)))) = true
          · rw [if_pos h1]; simp
          · rw [if_neg h1]
            by_cases h2 : (!ow₂ && dictHas s₂.filesToAdd
                (normalize_path (resolve_dist_info_path s₂.distInfoDir (d₂.getD nm₂)))) = true
            · rw [if_pos h2]; simp
            · rw [if_neg h2]; simp

/-- Witness for C1: the destination `../../etc/passwd` is rejected with
`PathTraversal` on a concrete session. -/
theorem c1_add_file_traversal_witness :
    add_file ⟨str "pkg.dist-info", [], [], []⟩ true true (str "x.txt") [104]
        (some (str "../../etc/passwd")) false
      = .error (.pathTraversal (str "../../etc/passwd")) ∧
    ∀ (s₂ : Session) (ex fi : Bool) (nm₂ : Str) (ct₂ : List Nat)
      (d₂ : Option Str) (ow₂ : Bool) (p : Str),
      add_file s₂ ex fi nm₂ ct₂ d₂ ow₂ ≠ .error (.absolutePath p) :=
  c1_add_file_traversal ⟨str "pkg.dist-info", [], [], []⟩ (str "x.txt") [104]
    (str "../../etc/passwd") false (by decide)

/-- C2 counterexample: when the staged files themselves contain the RECORD
path (reachable via `add_file ".dist-info/RECORD" --force`), the updated
manifest holds two entries for that path, not exactly one. -/
theorem c2_counterexample :
    (update_record [] [(str "R", [49])] (str "R")).countP
      (fun e => e.path == str "R") ≠ 1 ∧
    (update_record [] [(str "R", [49])] (str "R")).countP
      (fun e => e.path == str "R") = 2 := by
  constructor <;> decide

/-- C2 amended: provided the RECORD path is not itself a staged-file key,
`update_record` yields exactly one entry for the RECORD path, that entry
is last with empty hash and size, and the order is surviving originals,
then fresh entries per staged file in staging order, then the self-entry.
The staged keys are pairwise distinct because staging is a dict. -/
theorem c2_update_self_entry (existing : List RecordEntry)
    (nf : List (Str × List Nat)) (rp : Str)
    (hnd : (nf.map Prod.fst).Nodup) (hrp : rp ∉ nf.map Prod.fst) :
    update_record existing nf rp
      = existing.filter (fun e => !(e.path == rp) && !((nf.map Prod.fst).contains e.path))
        ++ nf.map (fun pc => format_record_entry pc.1 (some pc.2))
        ++ [⟨rp, [], []⟩] ∧
    (update_record existing nf rp).countP (fun e => e.path == rp) = 1 ∧
    (update_record existing nf rp).getLast? = some ⟨rp, [], []⟩ := by
  have hs := update_record_structure existing nf rp hnd
  have hself : format_record_entry rp none = (⟨rp, [], []⟩ : RecordEntry) := rfl
  rw [hself] at hs
  refine ⟨hs, ?_, ?_⟩
  · rw [hs]
    rw [List.countP_append, List.countP_append]
    have h1 : (existing.filter
        (fun e => !(e.path == rp) && !((nf.map Prod.fst).contains e.path))).countP
        (fun e => e.path == rp) = 0 := by
      rw [List.countP_eq_zero]
      intro e he
      have := (List.mem_filter.mp he).2
      simp only [Bool.and_eq_true, Bool.not_eq_true'] at this
      simp [this.1]
    have h2 : ((nf.map (fun pc => format_record_entry pc.1 (some pc.2))).countP
        (fun e => e.path == rp)) = 0 := by
      rw [List.countP_eq_zero]
      intro e he
      obtain ⟨pc, hpc, hpe⟩ := List.mem_map.mp he
      subst hpe
      simp only [format_record_entry_path, beq_iff_eq]
      intro hcontra
      exact hrp (hcontra ▸ List.mem_map.mpr ⟨pc, hpc, rfl⟩)
    rw [h1, h2]
    simp
  · rw [hs, List.getLast?_concat]

/-- Witness for C2: one staged file and a distinct RECORD path on concrete
input. -/
theorem c2_update_self_entry_witness :
    update_record [] [(str "n", [49])] (str "R")
      = [format_record_entry (str "n") (some [49]), ⟨str "R", [], []⟩] ∧
    (update_record [] [(str "n", [49])] (str "R")).countP
      (fun e => e.path == str "R") = 1 ∧
    (update_record [] [(str "n", [49])] (str "R")).getLast? = some ⟨str "R", [], []⟩ :=
  c2_update_self_entry [] [(str "n", [49])] (str "R") (by decide) (by decide)

/-- C5 counterexample: `update_record` does not deduplicate entries whose
path is neither removed nor re-added, so duplicate paths in the input
survive and the output paths are not pairwise distinct. -/
theorem c5_counterexample :
    ¬ ((update_record [⟨str "a", [], []⟩, ⟨str "a", [], []⟩]
          [(str "b", [49])] (str "R")).map (fun e => e.path)).Nodup := by
  decide

/-- C5 amended: the merge step keeps the output paths pairwise distinct
provided the input entry paths are already pairwise distinct and the
RECORD path is not a staged key (staged keys are distinct by dict-ness);
duplicates among input entries that are neither staged keys nor the RECORD
path are kept as-is. -/
theorem c5_update_nodup (existing : List RecordEntry)
    (nf : List (Str × List Nat)) (rp : Str)
    (hex : (existing.map (fun e => e.path)).Nodup)
    (hnd : (nf.map Prod.fst).Nodup) (hrp : rp ∉ nf.map Prod.fst) :
    ((update_record existing nf rp).map (fun e => e.path)).Nodup := by
  rw [update_record_structure existing nf rp hnd]
  simp only [List.map_append]
  rw [List.nodup_append, List.nodup_append]
  have hmapB : List.map (fun e => e.path)
      (List.map (fun pc => format_record_entry pc.1 (some pc.2)) nf) = nf.map Prod.fst := by
    rw [List.map_map]
    exact List.map_congr_left (fun pc _ => format_record_entry_path pc.1 (some pc.2))
  refine ⟨⟨?_, ?_, ?_⟩, ?_, ?_⟩
  · exact List.Sublist.nodup (List.Sublist.map (fun e => e.path)
      (List.filter_sublist existing)) hex
  · rw [hmapB]; exact hnd
  · intro a ha hb
    obtain ⟨e, he, hpe⟩ := List.mem_map.mp ha
    subst hpe
    have hcond := (List.mem_filter.mp he).2
    simp only [Bool.and_eq_true, Bool.not_eq_true'] at hcond
    rw [hmapB] at hb
    have hcontains := hcond.2
    rw [List.contains, List.elem_eq_mem, decide_eq_false_iff_not] at hcontains
    exact hcontains hb
  · simp
  · intro a ha hb
    simp only [List.map_cons, List.map_nil, format_record_entry_path,
      List.mem_singleton] at hb
    subst hb
    rcases List.mem_append.mp ha with ha1 | ha2
    · obtain ⟨e, he, hpe⟩ := List.mem_map.mp ha1
      have hcond := (List.mem_filter.mp he).2
      simp only [Bool.and_eq_true, Bool.not_eq_true'] at hcond
      have := hcond.1
      rw [beq_eq_false_iff_ne] at this
      exact this hpe
    · rw [hmapB] at ha2
      exact hrp ha2

/-- Witness for C5: distinct input paths and a fresh RECORD path on
concrete input. -/
theorem c5_update_nodup_witness :
    ((update_record [⟨str "a", [], []⟩] [(str "b", [49])] (str "R")).map
      (fun e => e.path)).Nodup :=
  c5_update_nodup [⟨str "a", [], []⟩] [(str "b", [49])] (str "R")
    (by decide) (by decide) (by decide)

/-- C8: a destination starting with the literal `.dist-info/` prefix
resolves to the metadata directory name, a slash, and the remainder; any
other destination is unchanged; a bare file name (no slash), as used for a
defaulted destination, is never resolved; and a successful `add_file` with
an explicit destination stages at the normalization of the resolution, so
resolution precedes normalization and validation. -/
theorem c8_resolve_placeholder (M d : Str) :
    ((str ".dist-info/").isPrefixOf d = true →
      resolve_dist_info_path M d = M ++ '/' :: d.drop 11) ∧
    ((str ".dist-info/").isPrefixOf d = false →
      resolve_dist_info_path M d = d) ∧
    ('/' ∉ d → resolve_dist_info_path M d = d) ∧
    (∀ (s : Session) (nm : Str) (ct : List Nat) (ow : Bool) (s₂ : Session),
      add_file s true true nm ct (some d) ow = .ok s₂ →
      s₂.filesToAdd = dictInsert s.filesToAdd
        (normalize_path (resolve_dist_info_path s.distInfoDir d)) ct) := by
  refine ⟨?_, ?_, ?_, ?_⟩
  · intro h
    obtain ⟨t, ht⟩ := distinfo_prefix_decomp d h
    subst ht
    rw [resolve_dist_info_path, if_pos h]
    rfl
  · intro h
    rw [resolve_dist_info_path, if_neg (by simp [h])]
  · intro h
    have hp : ¬ (str ".dist-info/").isPrefixOf d = true := by
      intro hc
      obtain ⟨t, ht⟩ := distinfo_prefix_decomp d hc
      exact h (ht ▸ (by simp [str]))
    rw [resolve_dist_info_path, if_neg hp]
  · intro s nm ct ow s₂ h
    unfold add_file at h
    simp only [Bool.not_true, Bool.false_eq_true, if_false, Option.getD_some] at h
    cases hv : validate_path_safe (normalize_path (resolve_dist_info_path s.distInfoDir d)) with
    | error e => rw [hv] at h; exact absurd h (by simp)
    | ok u =>
      rw [hv] at h
      dsimp only at h
      by_cases h1 : (!ow && s.namelist.contains
          (normalize_path (resolve_dist_info_path s.distInfoDir d))) = true
      · rw [if_pos h1] at h; exact absurd h (by simp)
      · rw [if_neg h1] at h
        by_cases h2 : (!ow && dictHas s.filesToAdd
            (normalize_path (resolve_dist_info_path s.distInfoDir d))) = true
        · rw [if_pos h2] at h; exact absurd h (by simp)
        · rw [if_neg h2] at h
          rw [← Except.ok.inj h]

/-- C3: a failing `save` is non-mutating and artifact-free.  With nothing
staged it fails with `NothingToSave` touching neither the filesystem nor
the session (in particular the source archive and the output path are
unchanged); a failure at any construction step (including the final
rename, `k = length`) unlinks the temporary file, leaves every other path
-- the output path included -- untouched, surfaces as `WriteFailure`, and
leaves the session's staged files and parsed manifest unchanged for a
retry. -/
theorem c3_save_failure (s : Session) (fs : FS) (out tmp : Str) (k : Nat) :
    (s.filesToAdd.isEmpty = true →
      save s fs out tmp none = (.error .nothingToSave, fs, s) ∧
      save s fs out tmp (some k) = (.error .nothingToSave, fs, s)) ∧
    (s.filesToAdd.isEmpty = false → k ≤ (build_archive s).length →
      (save s fs out tmp (some k)).1 = .error .writeFailure ∧
      (save s fs out tmp (some k)).2.1 tmp = none ∧
      (∀ q, q ≠ tmp → (save s fs out tmp (some k)).2.1 q = fs q) ∧
      (save s fs out tmp (some k)).2.2 = s) := by
  constructor
  · intro h
    constructor <;> (unfold save; rw [if_pos h])
  · intro h hk
    unfold save
    rw [if_neg (by rw [h]; exact Bool.false_ne_true)]
    dsimp only
    rw [if_pos hk]
    refine ⟨rfl, ?_, ?_, rfl⟩
    · show (if tmp = tmp then none else _) = none
      rw [if_pos rfl]
    · intro q hq
      show (if q = tmp then none else if q = tmp then _ else fs q) = fs q
      rw [if_neg hq, if_neg hq]

/-- Witness for C3: both failure modes on a concrete session, filesystem
and paths. -/
theorem c3_save_failure_witness :
    ((Session.mk (str "d.dist-info") [] [] []).filesToAdd.isEmpty = true →
      save ⟨str "d.dist-info", [], [], []⟩ (fun _ => none) (str "o.whl") (str "t0") none
        = (.error .nothingToSave, (fun _ => none : FS), ⟨str "d.dist-info", [], [], []⟩) ∧
      save ⟨str "d.dist-info", [], [], []⟩ (fun _ => none) (str "o.whl") (str "t0") (some 1)
        = (.error .nothingToSave, (fun _ => none : FS), ⟨str "d.dist-info", [], [], []⟩)) ∧
    ((Session.mk (str "d.dist-info") [] [] []).filesToAdd.isEmpty = false →
      1 ≤ (build_archive ⟨str "d.dist-info", [], [], []⟩).length →
      (save ⟨str "d.dist-info", [], [], []⟩ (fun _ => none) (str "o.whl") (str "t0") (some 1)).1
        = .error .writeFailure ∧
      (save ⟨str "d.dist-info", [], [], []⟩ (fun _ => none) (str "o.whl") (str "t0") (some 1)).2.1
        (str "t0") = none ∧
      (∀ q, q ≠ str "t0" →
        (save ⟨str "d.dist-info", [], [], []⟩ (fun _ => none) (str "o.whl") (str "t0") (some 1)).2.1 q
          = (fun _ => none : FS) q) ∧
      (save ⟨str "d.dist-info", [], [], []⟩ (fun _ => none) (str "o.whl") (str "t0") (some 1)).2.2
        = ⟨str "d.dist-info", [], [], []⟩) :=
  c3_save_failure ⟨str "d.dist-info", [], [], []⟩ (fun _ => none) (str "o.whl") (str "t0") 1

/-- C9 counterexample: entries are not copied with the same compression.
The source stores `a.txt` uncompressed (`ZIP_STORED`), but `save` re-reads
the data and rewrites it through an archive opened with `ZIP_DEFLATED`, so
the copied entry's method differs from the source entry's. -/
theorem c9_counterexample :
    (Session.mk (str "d.dist-info")
        [⟨str "a.txt", [104], ZIP_STORED⟩, ⟨str "d.dist-info/RECORD", [], ZIP_DEFLATED⟩]
        [] [(str "b", [105])]).entries.head? = some ⟨str "a.txt", [104], ZIP_STORED⟩ ∧
    ((save (Session.mk (str "d.dist-info")
        [⟨str "a.txt", [104], ZIP_STORED⟩, ⟨str "d.dist-info/RECORD", [], ZIP_DEFLATED⟩]
        [] [(str "b", [105])]) (fun _ => none) (str "o.whl") (str "t0") none).2.1
      (str "o.whl")).map (fun a => a.head?)
      = some (some ⟨str "a.txt", [104], ZIP_DEFLATED⟩) ∧
    ZIP_STORED ≠ ZIP_DEFLATED :=
  ⟨rfl, rfl, by decide⟩

/-- C9 amended: a successful `save` produces at the output path the
archive holding every source entry except the RECORD file in order --
with its decompressed bytes, but rewritten with the deflate method rather
than the source entry's own method -- then every staged file, then the
serialized updated manifest; the temporary path is gone (atomic rename)
and every other path is untouched. -/
theorem c9_save_success (s : Session) (fs : FS) (out tmp : Str)
    (h : s.filesToAdd.isEmpty = false) :
    (save s fs out tmp none).1 = .ok () ∧
    (save s fs out tmp none).2.1 out = some (
      ((s.namelist.filter (fun n => !(n == s.recordPath))).map
        (fun item => ⟨item, zipRead s.entries item, ZIP_DEFLATED⟩))
      ++ (s.filesToAdd.map (fun pc => ⟨pc.1, pc.2, ZIP_DEFLATED⟩))
      ++ [⟨s.recordPath,
           strBytes (format_record (update_record s.existingRecord s.filesToAdd s.recordPath)),
           ZIP_DEFLATED⟩]) ∧
    (tmp ≠ out → (save s fs out tmp none).2.1 tmp = none) ∧
    (∀ q, q ≠ out → q ≠ tmp → (save s fs out tmp none).2.1 q = fs q) ∧
    (save s fs out tmp none).2.2 = s := by
  unfold save
  rw [if_neg (by rw [h]; exact Bool.false_ne_true)]
  dsimp only
  refine ⟨rfl, ?_, ?_, ?_, rfl⟩
  · show (if out = out then _ else _) = _
    rw [if_pos rfl]
    rfl
  · intro hne
    show (if tmp = out then _ else if tmp = tmp then none else _) = none
    rw [if_neg hne, if_pos rfl]
  · intro q hqo hqt
    show (if q = out then _ else if q = tmp then none else fs q) = fs q
    rw [if_neg hqo, if_neg hqt]

/-- Witness for C9: a concrete two-entry archive with one staged file. -/
theorem c9_save_success_witness :
    (save ⟨str "d.dist-info",
        [⟨str "a.txt", [104], ZIP_STORED⟩, ⟨str "d.dist-info/RECORD", [], ZIP_DEFLATED⟩],
        [], [(str "b", [105])]⟩ (fun _ => none) (str "o.whl") (str "t0") none).1 = .ok () ∧
    (save ⟨str "d.dist-info",
        [⟨str "a.txt", [104], ZIP_STORED⟩, ⟨str "d.dist-info/RECORD", [], ZIP_DEFLATED⟩],
        [], [(str "b", [105])]⟩ (fun _ => none) (str "o.whl") (str "t0") none).2.1 (str "o.whl")
      = some (build_archive ⟨str "d.dist-info",
        [⟨str "a.txt", [104], ZIP_STORED⟩, ⟨str "d.dist-info/RECORD", [], ZIP_DEFLATED⟩],
        [], [(str "b", [105])]⟩) ∧
    ((str "t0" : Str) ≠ str "o.whl" →
      (save ⟨str "d.dist-info",
        [⟨str "a.txt", [104], ZIP_STORED⟩, ⟨str "d.dist-info/RECORD", [], ZIP_DEFLATED⟩],
        [], [(str "b", [105])]⟩ (fun _ => none) (str "o.whl") (str "t0") none).2.1 (str "t0")
        = none) ∧
    (∀ q, q ≠ str "o.whl" → q ≠ str "t0" →
      (save ⟨str "d.dist-info",
        [⟨str "a.txt", [104], ZIP_STORED⟩, ⟨str "d.dist-info/RECORD", [], ZIP_DEFLATED⟩],
        [], [(str "b", [105])]⟩ (fun _ => none) (str "o.whl") (str "t0") none).2.1 q
        = (fun _ => none : FS) q) ∧
    (save ⟨str "d.dist-info",
        [⟨str "a.txt", [104], ZIP_STORED⟩, ⟨str "d.dist-info/RECORD", [], ZIP_DEFLATED⟩],
        [], [(str "b", [105])]⟩ (fun _ => none) (str "o.whl") (str "t0") none).2.2
      = ⟨str "d.dist-info",
        [⟨str "a.txt", [104], ZIP_STORED⟩, ⟨str "d.dist-info/RECORD", [], ZIP_DEFLATED⟩],
        [], [(str "b", [105])]⟩ :=
  c9_save_success ⟨str "d.dist-info",
    [⟨str "a.txt", [104], ZIP_STORED⟩, ⟨str "d.dist-info/RECORD", [], ZIP_DEFLATED⟩],
    [], [(str "b", [105])]⟩ (fun _ => none) (str "o.whl") (str "t0") (by decide)

/-- C10 counterexample: when the staged destination is the RECORD path
itself, the original bytes are not copied (the RECORD entry is skipped),
so the first output entry with that name holds the staged bytes, and the
manifest carries two rows for the path rather than one. -/
theorem c10_counterexample :
    (((build_archive ⟨str "d", [⟨str "d/RECORD", [114], ZIP_DEFLATED⟩], [],
        [(str "d/RECORD", [49])]⟩).filter
        (fun e => e.name == str "d/RECORD")).head?).map (fun e => e.data)
      = some [49] ∧
    zipRead [⟨str "d/RECORD", [114], ZIP_DEFLATED⟩] (str "d/RECORD") = [114] ∧
    (update_record [] [(str "d/RECORD", [49])]
        (Session.recordPath ⟨str "d", [⟨str "d/RECORD", [114], ZIP_DEFLATED⟩], [],
          [(str "d/RECORD", [49])]⟩)).countP
      (fun e => e.path == str "d/RECORD") = 2 :=
  ⟨rfl, rfl, by decide⟩

/-- C10 amended: when a staged destination also names a source entry
(overwrite), is distinct from the RECORD path, and names exactly one
source entry, the output archive holds exactly two entries with that name
-- first the copied original bytes, then the staged bytes -- while the
updated manifest holds exactly one row for the path, hashing the staged
content; a successful `save` places exactly this archive at the output
path. -/
theorem c10_overwrite_duplicate (s : Session) (fs : FS) (out tmp : Str)
    (d : Str) (ct : List Nat)
    (hnd : (s.filesToAdd.map Prod.fst).Nodup)
    (hcount : s.namelist.count d = 1)
    (hst : (d, ct) ∈ s.filesToAdd)
    (hrp : d ≠ s.recordPath)
    (hne : s.filesToAdd.isEmpty = false) :
    (build_archive s).filter (fun e => e.name == d)
      = [⟨d, zipRead s.entries d, ZIP_DEFLATED⟩, ⟨d, ct, ZIP_DEFLATED⟩] ∧
    (update_record s.existingRecord s.filesToAdd s.recordPath).filter
      (fun e => e.path == d) = [format_record_entry d (some ct)] ∧
    (save s fs out tmp none).2.1 out = some (build_archive s) := by
  have hdk : d ∈ s.filesToAdd.map Prod.fst := List.mem_map.mpr ⟨(d, ct), hst, rfl⟩
  refine ⟨?_, ?_, ?_⟩
  · unfold build_archive
    rw [List.filter_append, List.filter_append]
    have h1 : ((s.namelist.filter (fun n => !(n == s.recordPath))).map
        (fun item => (⟨item, zipRead s.entries item, ZIP_DEFLATED⟩ : ZEntry))).filter
        (fun e => e.name == d) = [⟨d, zipRead s.entries d, ZIP_DEFLATED⟩] := by
      rw [List.filter_map, List.filter_filter]
      have hcongr : List.filter
          (fun a => ((fun e => e.name == d) ∘
            fun item => (⟨item, zipRead s.entries item, ZIP_DEFLATED⟩ : ZEntry)) a
            && !(a == s.recordPath)) s.namelist
          = List.filter (fun a => a == d) s.namelist := by
        apply List.filter_congr
        intro a _
        by_cases ha : a = d
        · subst ha
          simp [Function.comp, beq_eq_false_iff_ne, hrp]
        · simp [Function.comp, ha]
      rw [hcongr, List.filter_beq, hcount]
      rfl
    have h2 : ((s.filesToAdd.map (fun pc => (⟨pc.1, pc.2, ZIP_DEFLATED⟩ : ZEntry))).filter
        (fun e => e.name == d)) = [⟨d, ct, ZIP_DEFLATED⟩] := by
      rw [List.filter_map]
      have : List.filter
          ((fun e => e.name == d) ∘ fun pc => (⟨pc.1, pc.2, ZIP_DEFLATED⟩ : ZEntry))
          s.filesToAdd = List.filter (fun pc => pc.1 == d) s.filesToAdd := by
        apply List.filter_congr
        intro pc _
        rfl
      rw [this, filter_key_nodup s.filesToAdd d ct hnd hst]
      rfl
    have h3 : (([⟨s.recordPath,
        strBytes (format_record (update_record s.existingRecord s.filesToAdd s.recordPath)),
        ZIP_DEFLATED⟩] : List ZEntry).filter (fun e => e.name == d)) = [] := by
      rw [List.filter_cons, if_neg (by simp [beq_eq_false_iff_ne]; exact fun h => hrp h.symm)]
      rfl
    rw [h1, h2, h3]
    rfl
  · rw [update_record_structure s.existingRecord s.filesToAdd s.recordPath hnd]
    rw [List.filter_append, List.filter_append]
    have h1 : (s.existingRecord.filter
        (fun e => !(e.path == s.recordPath)
          && !((s.filesToAdd.map Prod.fst).contains e.path))).filter
        (fun e => e.path == d) = [] := by
      rw [List.filter_eq_nil_iff]
      intro e he
      have hcond := (List.mem_filter.mp he).2
      simp only [Bool.and_eq_true, Bool.not_eq_true'] at hcond
      simp only [beq_iff_eq]
      intro hcontra
      have hcontains := hcond.2
      rw [List.contains, List.elem_eq_mem, decide_eq_false_iff_not] at hcontains
      exact hcontains (hcontra ▸ hdk)
    have h2 : ((s.filesToAdd.map (fun pc => format_record_entry pc.1 (some pc.2))).filter
        (fun e => e.path == d)) = [format_record_entry d (some ct)] := by
      rw [List.filter_map]
      have : List.filter
          ((fun e => e.path == d) ∘ fun pc => format_record_entry pc.1 (some pc.2))
          s.filesToAdd = List.filter (fun pc => pc.1 == d) s.filesToAdd := by
        apply List.filter_congr
        intro pc _
        simp [Function.comp]
      rw [this, filter_key_nodup s.filesToAdd d ct hnd hst]
      rfl
    have h3 : (([format_record_entry s.recordPath none] : List RecordEntry).filter
        (fun e => e.path == d)) = [] := by
      rw [List.filter_cons, if_neg (by simp [beq_eq_false_iff_ne]; exact fun h => hrp h.symm)]
      rfl
    rw [h1, h2, h3]
    rfl
  · unfold save
    rw [if_neg (by rw [hne]; exact Bool.false_ne_true)]
    dsimp only
    show (if out = out then _ else _) = _
    rw [if_pos rfl]

/-- Witness for C10: a concrete session staging new bytes over an entry
present in the source archive. -/
theorem c10_overwrite_duplicate_witness :
    (build_archive ⟨str "d.dist-info",
        [⟨str "a", [104], ZIP_DEFLATED⟩, ⟨str "d.dist-info/RECORD", [], ZIP_DEFLATED⟩],
        [], [(str "a", [105])]⟩).filter (fun e => e.name == str "a")
      = [⟨str "a", [104], ZIP_DEFLATED⟩, ⟨str "a", [105], ZIP_DEFLATED⟩] ∧
    (update_record [] [(str "a", [105])] (str "d.dist-info/RECORD")).filter
      (fun e => e.path == str "a") = [format_record_entry (str "a") (some [105])] ∧
    (save ⟨str "d.dist-info",
        [⟨str "a", [104], ZIP_DEFLATED⟩, ⟨str "d.dist-info/RECORD", [], ZIP_DEFLATED⟩],
        [], [(str "a", [105])]⟩ (fun _ => none) (str "o.whl") (str "t0") none).2.1 (str "o.whl")
      = some (build_archive ⟨str "d.dist-info",
        [⟨str "a", [104], ZIP_DEFLATED⟩, ⟨str "d.dist-info/RECORD", [], ZIP_DEFLATED⟩],
        [], [(str "a", [105])]⟩) :=
  c10_overwrite_duplicate ⟨str "d.dist-info",
    [⟨str "a", [104], ZIP_DEFLATED⟩, ⟨str "d.dist-info/RECORD", [], ZIP_DEFLATED⟩],
    [], [(str "a", [105])]⟩ (fun _ => none) (str "o.whl") (str "t0") (str "a") [105]
    (by decide) (by decide) (by decide) (by decide) (by decide)

/-- C6 counterexample: a field containing a bare carriage return -- which
contains neither comma nor quote, so the claim covers it -- breaks the
round trip: the writer leaves it unquoted (its quoting test checks only
the delimiter, the quote char and the `\n` line terminator), and the
reader then fails on the carriage return mid-line. -/
theorem c6_counterexample :
    (',' ∉ (['a', '\r', 'b'] : Str) ∧ '"' ∉ (['a', '\r', 'b'] : Str)) ∧
    parse_record (format_record [⟨['a', '\r', 'b'], [], []⟩])
      ≠ .ok [⟨['a', '\r', 'b'], [], []⟩] ∧
    parse_record (format_record [⟨['a', '\r', 'b'], [], []⟩])
      = .error (str "new-line character seen in unquoted field") := by
  have herr : parse_record (format_record [⟨['a', '\r', 'b'], [], []⟩])
      = .error (str "new-line character seen in unquoted field") := by rfl
  refine ⟨by decide, ?_, herr⟩
  rw [herr]
  simp

/-- C6 amended: the round trip `parse_record (format_record m) = ok m`
holds for every manifest whose fields contain no comma, no quote and no
carriage return; newline-bearing fields are quoted by the writer and
survive the round trip. -/
theorem c6_roundtrip (m : List RecordEntry)
    (h : ∀ e ∈ m, ∀ f ∈ [e.path, e.hash, e.size], ',' ∉ f ∧ '"' ∉ f ∧ '\r' ∉ f) :
    parse_record (format_record m) = .ok m := by
  unfold parse_record csvParse format_record
  rw [csvRun_format m [] h]
  simp only [Except.map, List.nil_append]
  congr 1
  have hfilter : (m.map to_csv_row).filter (fun r => !r.isEmpty) = m.map to_csv_row := by
    rw [List.filter_eq_self]
    intro r hr
    obtain ⟨e, _, he⟩ := List.mem_map.mp hr
    rw [← he]
    rfl
  rw [hfilter, List.map_map]
  have : from_csv_row ∘ to_csv_row = id := by
    funext e
    cases e
    rfl
  rw [this, List.map_id]

/-- Witness for C6: a concrete two-entry manifest, one field carrying a
quoted newline. -/
theorem c6_roundtrip_witness :
    parse_record (format_record
      [⟨str "pkg/mod.py", str "sha256=abc", str "100"⟩,
       ⟨'a' :: '\n' :: 'b' :: [], [], []⟩])
      = .ok [⟨str "pkg/mod.py", str "sha256=abc", str "100"⟩,
             ⟨'a' :: '\n' :: 'b' :: [], [], []⟩] :=
  c6_roundtrip
    [⟨str "pkg/mod.py", str "sha256=abc", str "100"⟩,
     ⟨'a' :: '\n' :: 'b' :: [], [], []⟩] (by decide)

/-- C7 counterexample: for a destination that is present in the source
archive but contains a `..` segment (zip entry names are arbitrary, so
such a session is reachable), `add_file` with `overwrite = true` does not
succeed: path validation runs first and fails with `PathTraversal`. -/
theorem c7_counterexample :
    (str "a/../b" : Str) ∈ (Session.mk (str "d.dist-info")
        [⟨str "a/../b", [104], ZIP_DEFLATED⟩] [] []).namelist ∧
    add_file ⟨str "d.dist-info", [⟨str "a/../b", [104], ZIP_DEFLATED⟩], [], []⟩
        true true (str "x") [105] (some (str "a/../b")) true
      = .error (.pathTraversal (str "a/../b")) :=
  ⟨by decide, by rfl⟩

/-- C7 amended: for a destination in resolved-and-normalized form (no
backslash, not absolute, no placeholder prefix, no `..` segment) that is
distinct from the RECORD path: without `overwrite`, `add_file` fails with
`AlreadyExists` when the destination is in the source archive's name list
and with `AlreadyQueued` when it is already staged, staging nothing; with
`overwrite` it succeeds and stages the new content, and after `save` the
archive entry readable at the destination is the new content and the
manifest's only row for it hashes the new content. -/
theorem c7_conflict_overwrite (s : Session) (fs : FS) (out tmp : Str)
    (nm d : Str) (ct : List Nat)
    (h1 : '\\' ∉ d) (h2 : isabs d = false)
    (h3 : (str ".dist-info/").isPrefixOf d = false)
    (h4 : ['.', '.'] ∉ List.splitOn '/' d)
    (hnd : (s.filesToAdd.map Prod.fst).Nodup)
    (hrp : d ≠ s.recordPath) :
    (d ∈ s.namelist →
      add_file s true true nm ct (some d) false = .error (.alreadyExists d)) ∧
    (d ∉ s.namelist → dictHas s.filesToAdd d = true →
      add_file s true true nm ct (some d) false = .error (.alreadyQueued d)) ∧
    add_file s true true nm ct (some d) true
      = .ok { s with filesToAdd := dictInsert s.filesToAdd d ct } ∧
    zipRead (build_archive { s with filesToAdd := dictInsert s.filesToAdd d ct }) d = ct ∧
    (update_record s.existingRecord (dictInsert s.filesToAdd d ct) s.recordPath).filter
      (fun e => e.path == d) = [format_record_entry d (some ct)] ∧
    (save { s with filesToAdd := dictInsert s.filesToAdd d ct } fs out tmp none).2.1 out
      = some (build_archive { s with filesToAdd := dictInsert s.filesToAdd d ct }) := by
  have hres : resolve_dist_info_path s.distInfoDir d = d := by
    rw [resolve_dist_info_path, if_neg (by simp [h3])]
  have hpipe : normalize_path (resolve_dist_info_path s.distInfoDir d) = d :=
    pipeline_id s.distInfoDir d h1 h2 h3
  have hnorm : normalize_path d = d := by
    have h := hpipe
    rw [hres] at h
    exact h
  have hval : validate_path_safe d = .ok () := by
    unfold validate_path_safe
    rw [hnorm, if_neg h4, if_neg (by rw [h2]; exact Bool.false_ne_true)]
  have hnd2 : ((dictInsert s.filesToAdd d ct).map Prod.fst).Nodup :=
    dictInsert_keys_nodup s.filesToAdd d ct hnd
  have hmem2 : (d, ct) ∈ dictInsert s.filesToAdd d ct := dictInsert_mem s.filesToAdd d ct
  have hdk : d ∈ (dictInsert s.filesToAdd d ct).map Prod.fst :=
    List.mem_map.mpr ⟨(d, ct), hmem2, rfl⟩
  refine ⟨?_, ?_, ?_, ?_, ?_, ?_⟩
  · intro hmem
    unfold add_file
    simp only [Bool.not_true, Bool.false_eq_true, if_false, Option.getD_some]
    rw [hpipe, hval]
    dsimp only
    rw [if_pos (by simp [List.contains, List.elem_eq_mem, hmem])]
  · intro hnmem hq
    unfold add_file
    simp only [Bool.not_true, Bool.false_eq_true, if_false, Option.getD_some]
    rw [hpipe, hval]
    dsimp only
    rw [if_neg (by simp [List.contains, List.elem_eq_mem, hnmem]), if_pos (by simp [hq])]
  · unfold add_file
    simp only [Bool.not_true, Bool.false_eq_true, if_false, Option.getD_some]
    rw [hpipe, hval]
    dsimp only
    rw [if_neg (by simp), if_neg (by simp)]
  · unfold zipRead build_archive
    dsimp only
    rw [List.filter_append, List.filter_append]
    have hstaged : (((dictInsert s.filesToAdd d ct).map
        (fun pc => (⟨pc.1, pc.2, ZIP_DEFLATED⟩ : ZEntry))).filter
        (fun e => e.name == d)) = [⟨d, ct, ZIP_DEFLATED⟩] := by
      rw [List.filter_map]
      have : List.filter
          ((fun e => e.name == d) ∘ fun pc => (⟨pc.1, pc.2, ZIP_DEFLATED⟩ : ZEntry))
          (dictInsert s.filesToAdd d ct)
          = List.filter (fun pc => pc.1 == d) (dictInsert s.filesToAdd d ct) := by
        apply List.filter_congr
        intro pc _
        rfl
      rw [this, filter_key_nodup _ d ct hnd2 hmem2]
      rfl
    have hrec : (([⟨Session.recordPath { s with filesToAdd := dictInsert s.filesToAdd d ct },
        strBytes (format_record (update_record s.existingRecord (dictInsert s.filesToAdd d ct)
          (Session.recordPath { s with filesToAdd := dictInsert s.filesToAdd d ct }))),
        ZIP_DEFLATED⟩] : List ZEntry).filter (fun e => e.name == d)) = [] := by
      rw [List.filter_cons, if_neg (by simp [beq_eq_false_iff_ne]; exact fun h => hrp h.symm)]
      rfl
    rw [hstaged, hrec, List.append_nil, List.getLastD_concat]
  · rw [update_record_structure s.existingRecord (dictInsert s.filesToAdd d ct)
      s.recordPath hnd2]
    rw [List.filter_append, List.filter_append]
    have hex : (s.existingRecord.filter
        (fun e => !(e.path == s.recordPath)
          && !(((dictInsert s.filesToAdd d ct).map Prod.fst).contains e.path))).filter
        (fun e => e.path == d) = [] := by
      rw [List.filter_eq_nil_iff]
      intro e he
      have hcond := (List.mem_filter.mp he).2
      simp only [Bool.and_eq_true, Bool.not_eq_true'] at hcond
      simp only [beq_iff_eq]
      intro hcontra
      have hcontains := hcond.2
      rw [List.contains, List.elem_eq_mem, decide_eq_false_iff_not] at hcontains
      exact hcontains (hcontra ▸ hdk)
    have hnew : (((dictInsert s.filesToAdd d ct).map
        (fun pc => format_record_entry pc.1 (some pc.2))).filter
        (fun e => e.path == d)) = [format_record_entry d (some ct)] := by
      rw [List.filter_map]
      have : List.filter
          ((fun e => e.path == d) ∘ fun pc => format_record_entry pc.1 (some pc.2))
          (dictInsert s.filesToAdd d ct)
          = List.filter (fun pc => pc.1 == d) (dictInsert s.filesToAdd d ct) := by
        apply List.filter_congr
        intro pc _
        simp [Function.comp]
      rw [this, filter_key_nodup _ d ct hnd2 hmem2]
      rfl
    have hself : (([format_record_entry s.recordPath none] : List RecordEntry).filter
        (fun e => e.path == d)) = [] := by
      rw [List.filter_cons, if_neg (by simp [beq_eq_false_iff_ne]; exact fun h => hrp h.symm)]
      rfl
    rw [hex, hnew, hself]
    rfl
  · unfold save
    rw [if_neg (by
      show ¬ (dictInsert s.filesToAdd d ct).isEmpty = true
      rw [dictInsert_ne_empty]
      exact Bool.false_ne_true)]
    dsimp only
    show (if out = out then _ else _) = _
    rw [if_pos rfl]

/-- Witness for C7: a concrete session holding `pkg/mod.py` both in the
archive and (with new bytes) in staging. -/
theorem c7_conflict_overwrite_witness :
    ((str "pkg/mod.py" : Str) ∈ (Session.mk (str "d.dist-info")
        [⟨str "pkg/mod.py", [104], ZIP_DEFLATED⟩, ⟨str "d.dist-info/RECORD", [], ZIP_DEFLATED⟩]
        [] []).namelist →
      add_file ⟨str "d.dist-info",
          [⟨str "pkg/mod.py", [104], ZIP_DEFLATED⟩, ⟨str "d.dist-info/RECORD", [], ZIP_DEFLATED⟩],
          [], []⟩ true true (str "x") [105] (some (str "pkg/mod.py")) false
        = .error (.alreadyExists (str "pkg/mod.py"))) ∧
    ((str "pkg/mod.py" : Str) ∉ (Session.mk (str "d.dist-info")
        [⟨str "pkg/mod.py", [104], ZIP_DEFLATED⟩, ⟨str "d.dist-info/RECORD", [], ZIP_DEFLATED⟩]
        [] []).namelist →
      dictHas ([] : List (Str × List Nat)) (str "pkg/mod.py") = true →
      add_file ⟨str "d.dist-info",
          [⟨str "pkg/mod.py", [104], ZIP_DEFLATED⟩, ⟨str "d.dist-info/RECORD", [], ZIP_DEFLATED⟩],
          [], []⟩ true true (str "x") [105] (some (str "pkg/mod.py")) false
        = .error (.alreadyQueued (str "pkg/mod.py"))) ∧
    add_file ⟨str "d.dist-info",
        [⟨str "pkg/mod.py", [104], ZIP_DEFLATED⟩, ⟨str "d.dist-info/RECORD", [], ZIP_DEFLATED⟩],
        [], []⟩ true true (str "x") [105] (some (str "pkg/mod.py")) true
      = .ok ⟨str "d.dist-info",
          [⟨str "pkg/mod.py", [104], ZIP_DEFLATED⟩, ⟨str "d.dist-info/RECORD", [], ZIP_DEFLATED⟩],
          [], [(str "pkg/mod.py", [105])]⟩ ∧
    zipRead (build_archive ⟨str "d.dist-info",
        [⟨str "pkg/mod.py", [104], ZIP_DEFLATED⟩, ⟨str "d.dist-info/RECORD", [], ZIP_DEFLATED⟩],
        [], [(str "pkg/mod.py", [105])]⟩) (str "pkg/mod.py") = [105] ∧
    (update_record [] [(str "pkg/mod.py", [105])] (str "d.dist-info/RECORD")).filter
      (fun e => e.path == str "pkg/mod.py")
      = [format_record_entry (str "pkg/mod.py") (some [105])] ∧
    (save ⟨str "d.dist-info",
        [⟨str "pkg/mod.py", [104], ZIP_DEFLATED⟩, ⟨str "d.dist-info/RECORD", [], ZIP_DEFLATED⟩],
        [], [(str "pkg/mod.py", [105])]⟩ (fun _ => none) (str "o.whl") (str "t0") none).2.1
      (str "o.whl")
      = some (build_archive ⟨str "d.dist-info",
        [⟨str "pkg/mod.py", [104], ZIP_DEFLATED⟩, ⟨str "d.dist-info/RECORD", [], ZIP_DEFLATED⟩],
        [], [(str "pkg/mod.py", [105])]⟩) :=
  c7_conflict_overwrite ⟨str "d.dist-info",
      [⟨str "pkg/mod.py", [104], ZIP_DEFLATED⟩, ⟨str "d.dist-info/RECORD", [], ZIP_DEFLATED⟩],
      [], []⟩ (fun _ => none) (str "o.whl") (str "t0") (str "x") (str "pkg/mod.py") [105]
    (by decide) (by decide) (by decide) (by decide) (by decide) (by decide)

end WheelPatcher
